import Mathlib

/-!
# Verification of the proksi ACME HTTP-01 certificate lifecycle

Shallow embedding of the certificate-lifecycle orchestration in
`src/services/letsencrypt/http01.rs` and of the plaintext request filter in
`src/proxy_server/http_proxy.rs`, with theorems settling the frozen claims.

Modelling conventions:
* Rust strings that are only compared for equality stay `String`; strings that
  are sliced or scanned (URI paths in the proxy) are modelled as `List Char`.
* External effects (filesystem writes, network requests, sleeps) are recorded
  in an explicit event trace (`Event`).
* The authority's responses (order status after each refresh, certificate
  download outcomes, authorization lists) are supplied by an oracle
  environment, one field per external input the code consumes.
-/

namespace Proksi

/-- ACME order status, mirroring `instant_acme::OrderStatus` as used by the
code (only `Ready` is inspected). -/
inductive OrderStatus
  | pending
  | ready
  | processing
  | valid
  | invalid
  deriving DecidableEq, Repr

/-- Result of the bounded readiness-polling loop in
`HttpLetsencrypt::start` (lines 319–338). -/
inductive PollResult
  | ready
  | gaveUp
  deriving DecidableEq, Repr

/-- The `while order.state().status != Ready` loop of
`HttpLetsencrypt::start`.  `statusAt n` is the order status visible after `n`
refreshes (`statusAt 0` is the status on loop entry).  `fuel` is
`max_retries - current_retry`, `currentRetry` and `retryDelay` track the
mutable loop variables.  Returns the loop outcome together with the list of
sleep durations performed, in order. -/
def pollLoopAux (statusAt : Nat → OrderStatus) :
    Nat → Nat → Nat → PollResult × List Nat
  | 0, currentRetry, _ =>
    if statusAt currentRetry = .ready then (.ready, []) else (.gaveUp, [])
  | fuel + 1, currentRetry, retryDelay =>
    if statusAt currentRetry = .ready then (.ready, [])
    else
      let rest := pollLoopAux statusAt fuel (currentRetry + 1) (retryDelay * 2)
      (rest.1, retryDelay :: rest.2)

/-- The readiness poller with the code's constants: `max_retries = 10`,
`current_retry = 0`, `retry_delay = 1`. -/
def pollLoop (statusAt : Nat → OrderStatus) : PollResult × List Nat :=
  pollLoopAux statusAt 10 0 1

lemma pollLoopAux_never_ready (statusAt : Nat → OrderStatus)
    (h : ∀ n, statusAt n ≠ .ready) :
    ∀ fuel currentRetry retryDelay,
      pollLoopAux statusAt fuel currentRetry retryDelay =
        (.gaveUp, (List.range fuel).map (fun i => retryDelay * 2 ^ i)) := by
  intro fuel
  induction fuel with
  | zero =>
    intro currentRetry retryDelay
    simp [pollLoopAux, h currentRetry]
  | succ n ih =>
    intro currentRetry retryDelay
    rw [pollLoopAux]
    simp only [h currentRetry, if_false, List.range_succ_eq_map, List.map_cons,
      ih (currentRetry + 1) (retryDelay * 2)]
    simp [List.map_map, Function.comp, pow_succ, Nat.mul_comm, Nat.mul_left_comm,
      Nat.mul_assoc]

lemma pollLoopAux_first_ready (statusAt : Nat → OrderStatus) :
    ∀ k fuel currentRetry retryDelay, k ≤ fuel →
      statusAt (currentRetry + k) = .ready →
      (∀ j < k, statusAt (currentRetry + j) ≠ .ready) →
      pollLoopAux statusAt fuel currentRetry retryDelay =
        (.ready, (List.range k).map (fun i => retryDelay * 2 ^ i)) := by
  intro k
  induction k with
  | zero =>
    intro fuel currentRetry retryDelay _ hready _
    simp only [Nat.add_zero] at hready
    cases fuel with
    | zero => simp [pollLoopAux, hready]
    | succ f => simp [pollLoopAux, hready]
  | succ m ih =>
    intro fuel currentRetry retryDelay hle hready hbefore
    have hne : statusAt currentRetry ≠ .ready := by
      have := hbefore 0 (Nat.succ_pos m)
      simpa using this
    obtain ⟨fuel', rfl⟩ : ∃ f, fuel = f + 1 :=
      ⟨fuel - 1, by omega⟩
    rw [pollLoopAux]
    simp only [hne, if_false]
    have hready' : statusAt (currentRetry + 1 + m) = .ready := by
      have : currentRetry + 1 + m = currentRetry + (m + 1) := by omega
      rw [this]; exact hready
    have hbefore' : ∀ j < m, statusAt (currentRetry + 1 + j) ≠ .ready := by
      intro j hj
      have : currentRetry + 1 + j = currentRetry + (j + 1) := by omega
      rw [this]
      exact hbefore (j + 1) (by omega)
    rw [ih fuel' (currentRetry + 1) (retryDelay * 2) (by omega) hready' hbefore']
    simp only [List.range_succ_eq_map, List.map_cons]
    simp [List.map_map, Function.comp, pow_succ, Nat.mul_comm, Nat.mul_left_comm,
      Nat.mul_assoc]

/-- **C1.** If the order status never becomes Ready, the polling loop performs
exactly 10 refresh attempts, sleeping `2^(n-1)` time units before attempt `n`
(the delays are `[1, 2, 4, 8, 16, 32, 64, 128, 256, 512]`), and then returns
normally (`gaveUp`, not an error).  And if the status first becomes Ready
after `k ≤ 10` refreshes, polling stops successfully at that moment, having
performed exactly `k` refreshes with delays `1, 2, …, 2^(k-1)`. -/
theorem claim_C1_backoff_schedule (statusAt : Nat → OrderStatus) :
    ((∀ n, statusAt n ≠ .ready) →
      pollLoop statusAt = (.gaveUp, [1, 2, 4, 8, 16, 32, 64, 128, 256, 512]))
    ∧ (∀ k, k ≤ 10 → statusAt k = .ready →
        (∀ j < k, statusAt j ≠ .ready) →
        pollLoop statusAt = (.ready, (List.range k).map (fun i => 2 ^ i))) := by
  constructor
  · intro h
    rw [pollLoop, pollLoopAux_never_ready statusAt h]
    decide
  · intro k hk hready hbefore
    rw [pollLoop,
      pollLoopAux_first_ready statusAt k 10 0 1 hk (by simpa using hready)
        (by simpa using hbefore)]
    simp

/-- Witness for C1: with a status oracle that never reports Ready, the loop
gives up after the ten scheduled delays; with one that is Ready immediately,
it succeeds with no delay. -/
theorem claim_C1_backoff_schedule_witness :
    pollLoop (fun _ => OrderStatus.pending) =
      (.gaveUp, [1, 2, 4, 8, 16, 32, 64, 128, 256, 512])
    ∧ pollLoop (fun _ => OrderStatus.ready) = (.ready, []) := by
  constructor
  · exact (claim_C1_backoff_schedule (fun _ => OrderStatus.pending)).1
      (fun n => by decide)
  · exact (claim_C1_backoff_schedule (fun _ => OrderStatus.ready)).2
      0 (by decide) (by decide) (fun j hj => by omega)

/-! ## Account bootstrap, order creation and challenge derivation -/

/-- Externally visible effects of a lifecycle run, in the order the code
performs them. -/
inductive Event
  | newAccountRequest
  | newOrderRequest (identifiers : List String)
  | writeOrderRef
  | persistChallenge (host : String)
  | signalReady (host : String)
  | sleepFor (secs : Nat)
  | refreshOrder
  | finalizeRequest
  | certDownloadAttempt
  | writeCert (host cert key : String)
  | panicked
  deriving DecidableEq, Repr

/-- The locally held credential material of `instant_acme::AccountCredentials`
(modelled post-deserialization: a credentials file holds one of these). -/
structure AccountCredentials where
  key : String
  accountUrl : String
  deriving DecidableEq, Repr

/-- An account session rehydrated from credentials
(`instant_acme::Account::from_credentials`). -/
structure Account where
  creds : AccountCredentials
  deriving DecidableEq, Repr

structure CreateAccountResult where
  account : Account
  credentials : AccountCredentials
  credFileAfter : Option AccountCredentials
  events : List Event
  deriving DecidableEq, Repr

/-- `HttpLetsencryptService::create_account` (http01.rs lines 89–138).
`credFile` is the current content of `data/account/credentials.json` (if
present); `authorityCred` is the credential material the authority would
return on a fresh registration.  If the file exists the code deserializes it,
rehydrates a session, and returns without any registration request; otherwise
it sends a new-account request, persists the returned credentials, and
returns them. -/
def create_account (credFile : Option AccountCredentials)
    (authorityCred : AccountCredentials) : CreateAccountResult :=
  match credFile with
  | some c => ⟨⟨c⟩, c, some c, []⟩
  | none => ⟨⟨authorityCred⟩, authorityCred, some authorityCred,
      [.newAccountRequest]⟩

/-- `HttpLetsencryptService::create_order` (http01.rs lines 141–171).  First
ensures an account (which may itself emit a registration request), then
builds the identifier list from hosts not in `excludedHosts`, failing before
the order request when the list is empty. -/
def create_order (credFile : Option AccountCredentials)
    (authorityCred : AccountCredentials) (hosts excludedHosts : List String) :
    Except Unit (List String) × List Event :=
  let acct := create_account credFile authorityCred
  let identifiers := hosts.filter (fun host => !excludedHosts.contains host)
  if identifiers = [] then (.error (), acct.events)
  else (.ok identifiers, acct.events ++ [.newOrderRequest identifiers])

/-- **C4.** With a pre-existing credentials file, `create_account` sends no
new-account registration request, the returned credentials and account are
exactly the ones deserialized from the file content, and a second call (on
the unchanged file) returns the identical account. -/
theorem claim_C4_idempotent_bootstrap
    (c authorityCred authorityCred' : AccountCredentials) :
    Event.newAccountRequest ∉ (create_account (some c) authorityCred).events
    ∧ (create_account (some c) authorityCred).credentials = c
    ∧ (create_account (some c) authorityCred).account = ⟨c⟩
    ∧ create_account (create_account (some c) authorityCred).credFileAfter
        authorityCred' = create_account (some c) authorityCred := by
  refine ⟨?_, rfl, rfl, rfl⟩
  simp [create_account]

/-- The identifier list actually submitted is the set difference
`hosts − excludedHosts`. -/
lemma filter_not_contains_toFinset (hosts excludedHosts : List String) :
    (hosts.filter (fun host => !excludedHosts.contains host)).toFinset =
      hosts.toFinset \ excludedHosts.toFinset := by
  ext x
  simp [List.mem_filter]

/-- Counterexample to C3 as stated: with no credentials file on disk, hosts
`["a"]` and excluded hosts `["a"]`, `create_order` fails — but only after the
account-bootstrap step has already issued a new-account network request, so
the run does not terminate "without any network call having been made". -/
theorem claim_C3_counterexample :
    (create_order none ⟨"key", "url"⟩ ["a"] ["a"]).1 = .error ()
    ∧ (create_order none ⟨"key", "url"⟩ ["a"] ["a"]).2 =
        [Event.newAccountRequest] := by
  constructor <;> rfl

/-- **C3 (amended).** `create_order` submits exactly the identifier set
`hosts − excludedHosts`; whenever that difference is empty it fails without
any *order-submission* network call — but the account-bootstrap step runs
first and may already have issued a new-account registration request. -/
theorem claim_C3_amended_create_order (credFile : Option AccountCredentials)
    (authorityCred : AccountCredentials) (hosts excludedHosts : List String) :
    (hosts.filter (fun host => !excludedHosts.contains host) ≠ [] →
      (create_order credFile authorityCred hosts excludedHosts).1 =
        .ok (hosts.filter (fun host => !excludedHosts.contains host))
      ∧ Event.newOrderRequest
          (hosts.filter (fun host => !excludedHosts.contains host)) ∈
            (create_order credFile authorityCred hosts excludedHosts).2
      ∧ (hosts.filter (fun host => !excludedHosts.contains host)).toFinset =
          hosts.toFinset \ excludedHosts.toFinset)
    ∧ (hosts.filter (fun host => !excludedHosts.contains host) = [] →
      (create_order credFile authorityCred hosts excludedHosts).1 = .error ()
      ∧ ∀ ids, Event.newOrderRequest ids ∉
          (create_order credFile authorityCred hosts excludedHosts).2) := by
  constructor
  · intro hne
    refine ⟨?_, ?_, filter_not_contains_toFinset hosts excludedHosts⟩
    · simp only [create_order]
      rw [if_neg hne]
    · simp only [create_order]
      rw [if_neg hne]
      simp
  · intro hnil
    refine ⟨?_, ?_⟩
    · simp only [create_order]
      rw [if_pos hnil]
    · intro ids
      simp only [create_order]
      rw [if_pos hnil]
      cases credFile <;> simp [create_account]

/-- Witness for C3 (amended): with excluded host `a`, the submitted
identifiers are exactly `["b"]`; with everything excluded, the order step
fails. -/
theorem claim_C3_amended_create_order_witness :
    (create_order (some ⟨"k", "u"⟩) ⟨"k2", "u2"⟩ ["a", "b"] ["a"]).1 = .ok ["b"]
    ∧ (create_order (some ⟨"k", "u"⟩) ⟨"k2", "u2"⟩ ["a"] ["a"]).1 =
        .error () := by
  constructor
  · exact ((claim_C3_amended_create_order (some ⟨"k", "u"⟩) ⟨"k2", "u2"⟩
      ["a", "b"] ["a"]).1 (by decide)).1
  · exact ((claim_C3_amended_create_order (some ⟨"k", "u"⟩) ⟨"k2", "u2"⟩
      ["a"] ["a"]).2 (by decide)).1

/-! ## Challenge derivation from an order's authorizations -/

/-- `instant_acme::ChallengeType`, restricted to the variants relevant here
(the service only ever selects `Http01`). -/
inductive ChallengeType
  | http01
  | dns01
  | tlsAlpn01
  deriving DecidableEq, Repr

/-- `instant_acme::AuthorizationStatus`. -/
inductive AuthorizationStatus
  | pending
  | valid
  | invalid
  | expired
  | deactivated
  | revoked
  deriving DecidableEq, Repr

/-- One candidate challenge inside an authorization
(`instant_acme::Challenge`). -/
structure Challenge where
  ctype : ChallengeType
  token : String
  url : String
  deriving DecidableEq, Repr

/-- One authorization of the fetched order (`instant_acme::Authorization`,
with `identifier` the DNS name of `Identifier::Dns`). -/
structure Authorization where
  status : AuthorizationStatus
  identifier : String
  challenges : List Challenge
  deriving DecidableEq, Repr

/-- The per-host data held by `Storage` for one identifier:
`(token, url, key_auth)`. -/
structure ChallengeRecord where
  token : String
  url : String
  keyAuth : String
  deriving DecidableEq, Repr

/-- `Storage::add_order`: `HashMap::insert` keyed by identifier, modelled on
an insertion-ordered association list (replace an existing key, otherwise
append). -/
def addOrder (store : List (String × ChallengeRecord)) (identifier : String)
    (record : ChallengeRecord) : List (String × ChallengeRecord) :=
  if store.any (fun p => p.1 == identifier) then
    store.map (fun p => if p.1 == identifier then (identifier, record) else p)
  else store ++ [(identifier, record)]

/-- Outcome of `create_challenges_from_order`.  `panic` marks the
`.ok_or(..).unwrap()` abort when a Valid authorization carries no HTTP-01
challenge. -/
inductive CoordResult
  | ok (store : List (String × ChallengeRecord))
  | orderErr
  | authzErr
  | panic
  deriving DecidableEq, Repr

/-- The `for authz in &authorizations` loop of
`HttpLetsencryptService::create_challenges_from_order` (http01.rs lines
186–217): Pending authorizations are skipped, Valid ones have their HTTP-01
challenge selected and recorded, any other status aborts the whole step.
`keyAuthOf` models `Order::key_authorization` (a function of the challenge
token and the account key). -/
def challengeLoop (keyAuthOf : String → String) :
    List (String × ChallengeRecord) → List Authorization → CoordResult
  | store, [] => .ok store
  | store, authz :: rest =>
    match authz.status with
    | .pending => challengeLoop keyAuthOf store rest
    | .valid =>
      match authz.challenges.find?
          (fun cha => cha.ctype == ChallengeType.http01) with
      | none => .panic
      | some challenge =>
        challengeLoop keyAuthOf
          (addOrder store authz.identifier
            ⟨challenge.token, challenge.url, keyAuthOf challenge.token⟩) rest
    | _ => .authzErr

/-- The record the loop builds for an accepted (Valid) authorization. -/
def recordOf (keyAuthOf : String → String) (authz : Authorization) :
    ChallengeRecord :=
  match authz.challenges.find?
      (fun cha => cha.ctype == ChallengeType.http01) with
  | some challenge => ⟨challenge.token, challenge.url, keyAuthOf challenge.token⟩
  | none => ⟨"", "", ""⟩

/-- `HttpLetsencryptService::create_challenges_from_order`: create the order,
then derive challenge records from its authorizations. -/
def create_challenges_from_order (credFile : Option AccountCredentials)
    (authorityCred : AccountCredentials) (hosts excludedHosts : List String)
    (keyAuthOf : String → String) (authorizations : List Authorization) :
    CoordResult × List Event :=
  match create_order credFile authorityCred hosts excludedHosts with
  | (.error _, events) => (.orderErr, events)
  | (.ok _, events) => (challengeLoop keyAuthOf [] authorizations, events)

lemma addOrder_of_fresh (store : List (String × ChallengeRecord))
    (identifier : String) (record : ChallengeRecord)
    (h : ∀ p ∈ store, p.1 ≠ identifier) :
    addOrder store identifier record = store ++ [(identifier, record)] := by
  rw [addOrder, if_neg]
  intro hany
  rw [List.any_eq_true] at hany
  obtain ⟨p, hp, hbeq⟩ := hany
  exact h p hp (by simpa using hbeq)

lemma challengeLoop_all_actionable (keyAuthOf : String → String) :
    ∀ (authzs : List Authorization) (store : List (String × ChallengeRecord)),
      (∀ a ∈ authzs, a.status = .pending ∨ a.status = .valid) →
      (∀ a ∈ authzs, a.status = .valid →
        (a.challenges.find?
          (fun cha => cha.ctype == ChallengeType.http01)).isSome) →
      ((authzs.filter (fun a => a.status == AuthorizationStatus.valid)).map
          Authorization.identifier).Nodup →
      (∀ a ∈ authzs, a.status = .valid → ∀ p ∈ store, p.1 ≠ a.identifier) →
      challengeLoop keyAuthOf store authzs =
        .ok (store ++
          (authzs.filter (fun a => a.status == AuthorizationStatus.valid)).map
            (fun a => (a.identifier, recordOf keyAuthOf a)))
  | [], store, _, _, _, _ => by simp [challengeLoop]
  | authz :: rest, store, hactionable, hHttp, hNodup, hfresh => by
    rcases hactionable authz (by simp) with hpend | hval
    · rw [challengeLoop, hpend]
      have hrest := challengeLoop_all_actionable keyAuthOf rest store
        (fun a ha => hactionable a (by simp [ha]))
        (fun a ha => hHttp a (by simp [ha]))
        (by simpa [List.filter_cons, hpend] using hNodup)
        (fun a ha => hfresh a (by simp [ha]))
      rw [hrest]
      simp [List.filter_cons, hpend]
    · obtain ⟨challenge, hfind⟩ :=
        Option.isSome_iff_exists.1 (hHttp authz (by simp) hval)
      rw [challengeLoop]
      simp only [hval, hfind]
      have hfreshHere : ∀ p ∈ store, p.1 ≠ authz.identifier :=
        hfresh authz (by simp) hval
      rw [addOrder_of_fresh store authz.identifier _ hfreshHere]
      have hsplit : (∀ x ∈ rest, x.status = AuthorizationStatus.valid →
            ¬ x.identifier = authz.identifier)
          ∧ ((rest.filter (fun a => a.status == AuthorizationStatus.valid)).map
              Authorization.identifier).Nodup := by
        have := hNodup
        simp only [List.filter_cons, hval] at this
        simpa using this
      have hfresh' : ∀ a ∈ rest, a.status = .valid →
          ∀ p ∈ store ++ [(authz.identifier,
            (⟨challenge.token, challenge.url, keyAuthOf challenge.token⟩ :
              ChallengeRecord))], p.1 ≠ a.identifier := by
        intro a ha hav p hp
        rcases List.mem_append.1 hp with hp | hp
        · exact hfresh a (by simp [ha]) hav p hp
        · simp only [List.mem_singleton] at hp
          subst hp
          intro hcontra
          exact hsplit.1 a ha hav hcontra.symm
      have hrest := challengeLoop_all_actionable keyAuthOf rest
        (store ++ [(authz.identifier,
          ⟨challenge.token, challenge.url, keyAuthOf challenge.token⟩)])
        (fun a ha => hactionable a (by simp [ha]))
        (fun a ha => hHttp a (by simp [ha]))
        hsplit.2 hfresh'
      rw [hrest]
      simp [List.filter_cons, hval, recordOf, hfind]

lemma challengeLoop_aborts (keyAuthOf : String → String) :
    ∀ (authzs : List Authorization) (store : List (String × ChallengeRecord)),
      (∀ a ∈ authzs, a.status = .valid →
        (a.challenges.find?
          (fun cha => cha.ctype == ChallengeType.http01)).isSome) →
      (∃ a ∈ authzs, a.status ≠ .pending ∧ a.status ≠ .valid) →
      challengeLoop keyAuthOf store authzs = .authzErr
  | [], _, _, hbad => by simp at hbad
  | authz :: rest, store, hHttp, hbad => by
    obtain ⟨b, hb, hbp, hbv⟩ := hbad
    rcases List.mem_cons.1 hb with rfl | hbrest
    · rw [challengeLoop]
      cases hst : b.status with
      | pending => exact absurd hst hbp
      | valid => exact absurd hst hbv
      | invalid => rfl
      | expired => rfl
      | deactivated => rfl
      | revoked => rfl
    · rw [challengeLoop]
      cases hst : authz.status with
      | pending =>
        exact challengeLoop_aborts keyAuthOf rest store
          (fun a ha => hHttp a (by simp [ha])) ⟨b, hbrest, hbp, hbv⟩
      | valid =>
        obtain ⟨challenge, hfind⟩ :=
          Option.isSome_iff_exists.1 (hHttp authz (by simp) hst)
        rw [hfind]
        exact challengeLoop_aborts keyAuthOf rest _
          (fun a ha => hHttp a (by simp [ha])) ⟨b, hbrest, hbp, hbv⟩
      | invalid => rfl
      | expired => rfl
      | deactivated => rfl
      | revoked => rfl

/-- **C2.** In `create_challenges_from_order` (reached with a non-empty
identifier list, each Valid authorization carrying an HTTP-01 challenge, and
distinct identifiers): a Pending authorization is skipped and contributes no
record; a Valid one yields exactly the record built from its HTTP-01
challenge; and if any authorization has any other status, the whole
coordination step aborts with an error. -/
theorem claim_C2_authorization_branching (credFile : Option AccountCredentials)
    (authorityCred : AccountCredentials) (hosts excludedHosts : List String)
    (keyAuthOf : String → String) (authorizations : List Authorization)
    (hremaining : hosts.filter (fun host => !excludedHosts.contains host) ≠ [])
    (hHttp : ∀ a ∈ authorizations, a.status = .valid →
      (a.challenges.find?
        (fun cha => cha.ctype == ChallengeType.http01)).isSome)
    (hNodup : ((authorizations.filter
        (fun a => a.status == AuthorizationStatus.valid)).map
      Authorization.identifier).Nodup) :
    ((∀ a ∈ authorizations, a.status = .pending ∨ a.status = .valid) →
      (create_challenges_from_order credFile authorityCred hosts excludedHosts
          keyAuthOf authorizations).1 =
        .ok ((authorizations.filter
            (fun a => a.status == AuthorizationStatus.valid)).map
          (fun a => (a.identifier, recordOf keyAuthOf a))))
    ∧ ((∃ a ∈ authorizations, a.status ≠ .pending ∧ a.status ≠ .valid) →
      (create_challenges_from_order credFile authorityCred hosts excludedHosts
          keyAuthOf authorizations).1 = .authzErr) := by
  have horder : create_order credFile authorityCred hosts excludedHosts =
      (.ok (hosts.filter (fun host => !excludedHosts.contains host)),
        (create_account credFile authorityCred).events ++
          [.newOrderRequest
            (hosts.filter (fun host => !excludedHosts.contains host))]) := by
    simp only [create_order]
    rw [if_neg hremaining]
  constructor
  · intro hactionable
    rw [create_challenges_from_order, horder]
    simpa using challengeLoop_all_actionable keyAuthOf authorizations []
      hactionable hHttp hNodup (by simp)
  · intro hbad
    rw [create_challenges_from_order, horder]
    simpa using challengeLoop_aborts keyAuthOf authorizations [] hHttp hbad

/-- Witness for C2: one Pending authorization (skipped) and one Valid one
(recorded from its HTTP-01 challenge); and with an Invalid authorization
present, the step aborts. -/
theorem claim_C2_authorization_branching_witness :
    (create_challenges_from_order (some ⟨"k", "u"⟩) ⟨"k2", "u2"⟩ ["a"] []
        (fun t => t ++ ".thumb")
        [⟨.pending, "p.example", [⟨.http01, "tp", "up"⟩]⟩,
         ⟨.valid, "v.example", [⟨.dns01, "td", "ud"⟩, ⟨.http01, "tv", "uv"⟩]⟩]).1
      = .ok [("v.example", ⟨"tv", "uv", "tv.thumb"⟩)]
    ∧ (create_challenges_from_order (some ⟨"k", "u"⟩) ⟨"k2", "u2"⟩ ["a"] []
        (fun t => t ++ ".thumb")
        [⟨.invalid, "i.example", [⟨.http01, "ti", "ui"⟩]⟩]).1 = .authzErr := by
  constructor
  · exact (claim_C2_authorization_branching (some ⟨"k", "u"⟩) ⟨"k2", "u2"⟩
      ["a"] [] (fun t => t ++ ".thumb")
      [⟨.pending, "p.example", [⟨.http01, "tp", "up"⟩]⟩,
       ⟨.valid, "v.example", [⟨.dns01, "td", "ud"⟩, ⟨.http01, "tv", "uv"⟩]⟩]
      (by decide) (by decide) (by decide)).1 (by decide)
  · exact (claim_C2_authorization_branching (some ⟨"k", "u"⟩) ⟨"k2", "u2"⟩
      ["a"] [] (fun t => t ++ ".thumb")
      [⟨.invalid, "i.example", [⟨.http01, "ti", "ui"⟩]⟩]
      (by decide) (by decide) (by decide)).2
      ⟨⟨.invalid, "i.example", [⟨.http01, "ti", "ui"⟩]⟩, by decide, by decide,
        by decide⟩

/-! ## The plaintext proxy request filter (`http_proxy.rs`) -/

/-- Rust `&str`, modelled as its character sequence (the proxy slices and
scans paths, so `String` equality alone is not enough). -/
abbrev Str := List Char

def pingPath : Str := "/ping".toList

def acmeChallengePath : Str := "/.well-known/acme-challenge".toList

def textPlain : Str := "text/plain".toList

def pongBody : Str := "pong".toList

def httpsScheme : Str := "https://".toList

/-- `str::starts_with` on the model strings. -/
def strStartsWith : Str → Str → Bool
  | _, [] => true
  | [], _ :: _ => false
  | c :: cs, p :: ps => c == p && strStartsWith cs ps

/-- Accumulator pass computing `split('/').last()`: the segment after the
final `'/'` (the whole string when it has none). -/
def lastSegmentAux : Str → Str → Str
  | acc, [] => acc
  | acc, c :: cs =>
    if c = '/' then lastSegmentAux [] cs else lastSegmentAux (acc ++ [c]) cs

/-- `current_uri.path().split('/').last().unwrap()` (http_proxy.rs line 68). -/
def lastSegment (s : Str) : Str := lastSegmentAux [] s

/-- The parts of an incoming plaintext request the filter consumes.
`hostHeader` is the Host header after `to_str().unwrap_or("")` (absent header
= `none`), `uriHost` is `uri.host()`, `path`/`query` come from the URI. -/
structure Request where
  hostHeader : Option Str
  uriHost : Option Str
  path : Str
  query : Option Str

/-- `current_uri.path_and_query()` as used by the redirect branch. -/
def Request.pathAndQuery (r : Request) : Str :=
  r.path ++ (match r.query with | some q => '?' :: q | none => [])

/-- What `request_filter` produces: a `pingora::Error::HTTPStatus` error, or
a written response (status, Content-Type, body, optional Location header). -/
inductive FilterResult
  | err (status : Nat)
  | response (status : Nat) (contentType : Str) (body : Str)
      (location : Option Str)
  deriving DecidableEq, Repr

/-- `get_host` (http_proxy.rs lines 124–134): Host header first, else the
URI's host, else the empty string. -/
def get_host (r : Request) : Str :=
  match r.hostHeader with
  | some host => host
  | none =>
    match r.uriHost with
    | some host => host
    | none => []

/-- Lookup in `HttpLB.challenge_store` (a map from host to
`(token, proof)`), modelled as an association list. -/
def challengeStoreGet (store : List (Str × Str × Str)) (host : Str) :
    Option (Str × Str) :=
  (store.find? (fun p => p.1 == host)).map (fun p => p.2)

/-- `HttpLB::request_filter` (http_proxy.rs lines 27–108): reject hostless
requests with 400; answer `/ping` with `pong`; serve ACME challenge proofs
from the store (404 on missing record or token mismatch); permanently
redirect everything else to the HTTPS equivalent. -/
def request_filter (store : List (Str × Str × Str)) (r : Request) :
    FilterResult :=
  let host := get_host r
  if host = [] then .err 400
  else if r.path = pingPath then .response 200 textPlain pongBody none
  else if strStartsWith r.path acmeChallengePath then
    match challengeStoreGet store host with
    | none => .err 404
    | some (token, proof) =>
      let tokenFromUrl := lastSegment r.path
      if token ≠ tokenFromUrl then .err 404
      else .response 200 textPlain proof none
  else
    .response 308 textPlain []
      (some (httpsScheme ++ host ++ r.pathAndQuery))

lemma strStartsWith_append (p rest : Str) :
    strStartsWith (p ++ rest) p = true := by
  induction p with
  | nil => cases rest <;> rfl
  | cons c cs ih => simp [strStartsWith, ih]

lemma lastSegmentAux_reset (l₂ : Str) :
    ∀ (l₁ acc : Str), lastSegmentAux acc (l₁ ++ '/' :: l₂) =
      lastSegmentAux [] l₂
  | [], acc => by simp [lastSegmentAux]
  | c :: cs, acc => by
    by_cases hc : c = '/'
    · simp only [List.cons_append, lastSegmentAux, if_pos hc]
      exact lastSegmentAux_reset l₂ cs []
    · simp only [List.cons_append, lastSegmentAux, if_neg hc]
      exact lastSegmentAux_reset l₂ cs (acc ++ [c])

lemma lastSegmentAux_no_slash :
    ∀ (l acc : Str), (∀ c ∈ l, c ≠ '/') → lastSegmentAux acc l = acc ++ l
  | [], acc, _ => by simp [lastSegmentAux]
  | c :: cs, acc, h => by
    have hc : c ≠ '/' := h c (by simp)
    simp only [lastSegmentAux, if_neg hc]
    rw [lastSegmentAux_no_slash cs (acc ++ [c]) (fun x hx => h x (by simp [hx]))]
    simp

lemma lastSegment_challenge_path (t : Str) (hslash : ∀ c ∈ t, c ≠ '/') :
    lastSegment (acmeChallengePath ++ '/' :: t) = t := by
  rw [lastSegment, lastSegmentAux_reset t acmeChallengePath [],
    lastSegmentAux_no_slash t [] hslash]
  simp

lemma challenge_path_ne_ping (t : Str) :
    acmeChallengePath ++ '/' :: t ≠ pingPath := by
  intro h
  have := congrArg List.length h
  simp [acmeChallengePath, pingPath] at this

/-- **C5.** For a request to `/.well-known/acme-challenge/<t>` with Host
header `host`: when the store holds `(token, proof)` for `host`, the filter
answers `200 OK`, `Content-Type: text/plain`, body `proof` if `t` equals the
token, and `404` otherwise; when the store has no record for `host`, it
answers `404`. -/
theorem claim_C5_challenge_responder (store : List (Str × Str × Str))
    (host t token proof : Str) (hhost : host ≠ [])
    (hslash : ∀ c ∈ t, c ≠ '/') :
    (challengeStoreGet store host = some (token, proof) →
      request_filter store
          ⟨some host, none, acmeChallengePath ++ '/' :: t, none⟩ =
        if t = token then .response 200 textPlain proof none else .err 404)
    ∧ (challengeStoreGet store host = none →
      request_filter store
          ⟨some host, none, acmeChallengePath ++ '/' :: t, none⟩ =
        .err 404) := by
  have hgh : get_host ⟨some host, none, acmeChallengePath ++ '/' :: t, none⟩
      = host := rfl
  constructor
  · intro hstore
    rw [request_filter]
    simp only [hgh, if_neg hhost,
      if_neg (challenge_path_ne_ping t),
      strStartsWith_append acmeChallengePath ('/' :: t), if_true, hstore,
      lastSegment_challenge_path t hslash]
    by_cases heq : t = token
    · simp [heq]
    · simp [heq, Ne.symm heq]
  · intro hstore
    rw [request_filter]
    simp only [hgh, if_neg hhost,
      if_neg (challenge_path_ne_ping t),
      strStartsWith_append acmeChallengePath ('/' :: t), if_true, hstore]

/-- Witness for C5: with `{host example.com, proof xyz, token abc}`
persisted, token `abc` yields `200` with body `xyz` and token `def` yields
`404`; with an empty store the lookup yields `404`. -/
theorem claim_C5_challenge_responder_witness :
    request_filter [("example.com".toList,
        "abc".toList, "xyz".toList)]
      ⟨some "example.com".toList, none,
        acmeChallengePath ++ '/' :: "abc".toList, none⟩ =
      .response 200 textPlain "xyz".toList none
    ∧ request_filter [("example.com".toList,
        "abc".toList, "xyz".toList)]
      ⟨some "example.com".toList, none,
        acmeChallengePath ++ '/' :: "def".toList, none⟩ = .err 404
    ∧ request_filter []
      ⟨some "example.com".toList, none,
        acmeChallengePath ++ '/' :: "abc".toList, none⟩ = .err 404 := by
  refine ⟨?_, ?_, ?_⟩
  · have := (claim_C5_challenge_responder
      [("example.com".toList, "abc".toList, "xyz".toList)]
      "example.com".toList "abc".toList "abc".toList "xyz".toList
      (by decide) (by decide)).1 (by decide)
    simpa using this
  · have := (claim_C5_challenge_responder
      [("example.com".toList, "abc".toList, "xyz".toList)]
      "example.com".toList "def".toList "abc".toList "xyz".toList
      (by decide) (by decide)).1 (by decide)
    simpa using this
  · exact (claim_C5_challenge_responder []
      "example.com".toList "abc".toList "abc".toList "xyz".toList
      (by decide) (by decide)).2 (by decide)

/-- **C6.** Every plaintext request with a determinable host whose path is
neither `/ping` nor an acme-challenge path is answered with a permanent
redirect (308) whose Location is the HTTPS URI with the same host, path and
query. -/
theorem claim_C6_https_redirect (store : List (Str × Str × Str)) (r : Request)
    (hhost : get_host r ≠ [])
    (hping : r.path ≠ pingPath)
    (hacme : strStartsWith r.path acmeChallengePath = false) :
    request_filter store r =
      .response 308 textPlain []
        (some (httpsScheme ++ get_host r ++ r.pathAndQuery)) := by
  rw [request_filter]
  simp only [if_neg hhost, if_neg hping, hacme, Bool.false_eq_true, if_false]

/-- Witness for C6: `/foo?x=1` with Host `example.com` redirects to
`https://example.com/foo?x=1`. -/
theorem claim_C6_https_redirect_witness :
    request_filter []
      ⟨some "example.com".toList, none, "/foo".toList, some "x=1".toList⟩ =
      .response 308 textPlain []
        (some "https://example.com/foo?x=1".toList) := by
  have := claim_C6_https_redirect []
    ⟨some "example.com".toList, none, "/foo".toList, some "x=1".toList⟩
    (by decide) (by decide) (by decide)
  simpa using this

/-- **C10.** A plaintext request with no Host header and no host in the URI
is rejected with HTTP 400 regardless of its path, query or the challenge
store — so the `/ping` response, the challenge lookup and the HTTPS redirect
are all unreachable for such a request. -/
theorem claim_C10_hostless_400 (store : List (Str × Str × Str)) (path : Str)
    (query : Option Str) :
    request_filter store ⟨none, none, path, query⟩ = .err 400 := rfl

/-! ## The lifecycle driver `HttpLetsencrypt::start` -/

/-- One call of `order.certificate()` in the download loop:
`Ok(Some(cert))`, `Ok(None)`, or `Err(_)`. -/
inductive CertOutcome
  | ready (cert : String)
  | notYet
  | err
  deriving DecidableEq, Repr

/-- Outcome of the certificate-download loop; `running` marks a run still
inside the (unbounded) loop after the modelled fuel. -/
inductive DlStatus
  | got (cert : String)
  | hardErr
  | running
  deriving DecidableEq, Repr

/-- The `let cert_chain = loop { … }` download loop (http01.rs lines
362–377): poll `order.certificate()`, sleeping 5 time units after each
`Ok(None)`, stopping at the first chain or hard error.  `certAt i` is the
authority's answer to the `i`-th download attempt. -/
def downloadLoop (certAt : Nat → CertOutcome) : Nat → Nat → DlStatus × List Event
  | _, 0 => (.running, [])
  | i, fuel + 1 =>
    match certAt i with
    | .ready cert => (.got cert, [.certDownloadAttempt])
    | .notYet =>
      let rest := downloadLoop certAt (i + 1) fuel
      (rest.1, .certDownloadAttempt :: .sleepFor 5 :: rest.2)
    | .err => (.hardErr, [.certDownloadAttempt])

/-- The `for (key, value) in svc.cert_store.get_orders()` loop (http01.rs
lines 305–317): per record, write `challenges/<host>/meta.csv`, flush, then
`order.set_challenge_ready(url)` — persist and signal interleaved. -/
def publishLoop : List (String × ChallengeRecord) → List Event
  | [] => []
  | (identifier, _) :: rest =>
    .persistChallenge identifier :: .signalReady identifier :: publishLoop rest

/-- The events of the readiness-polling loop: a sleep then a refresh per
attempt. -/
def pollEvents (statusAt : Nat → OrderStatus) : List Event :=
  (pollLoop statusAt).2.flatMap (fun d => [.sleepFor d, .refreshOrder])

/-- Everything external the driver consumes during one run. -/
structure Env where
  challengeFileExists : String → Bool
  credFile : Option AccountCredentials
  authorityCred : AccountCredentials
  keyAuthOf : String → String
  authorizations : List Authorization
  statusAt : Nat → OrderStatus
  finalizeOk : Bool
  certAt : Nat → CertOutcome
  keyPem : String
  dlFuel : Nat

/-- `HttpLetsencrypt::start` (http01.rs lines 254–418) as an event trace:
compute excluded hosts from existing challenge files; stop if all are
excluded; create the order and derive challenges; persist the order
reference; stop if no records; persist + signal each record; poll readiness
(stop on the retry cap); finalize (stop on rejection); download the chain
(stop on hard error); write the same chain and key for every non-excluded
host.  `keyPem` models `kp.serialize_pem()` of the freshly generated key
pair. -/
def start (hosts : List String) (env : Env) : List Event :=
  let excludedHosts := hosts.filter env.challengeFileExists
  if excludedHosts.length = hosts.length then []
  else
    match create_challenges_from_order env.credFile env.authorityCred hosts
        excludedHosts env.keyAuthOf env.authorizations with
    | (.ok store, events) =>
      events ++ .writeOrderRef ::
        (if store = [] then []
         else
          publishLoop store ++ pollEvents env.statusAt ++
            match (pollLoop env.statusAt).1 with
            | .gaveUp => []
            | .ready =>
              .finalizeRequest ::
                (if env.finalizeOk = false then []
                 else
                  (downloadLoop env.certAt 0 env.dlFuel).2 ++
                    match (downloadLoop env.certAt 0 env.dlFuel).1 with
                    | .got cert =>
                      (hosts.filter
                        (fun host => !excludedHosts.contains host)).map
                          (fun host => .writeCert host cert env.keyPem)
                    | _ => []))
    | (.panic, events) => events ++ [.panicked]
    | (_, events) => events

def isPersist : Event → Bool
  | .persistChallenge _ => true
  | _ => false

def isSignal : Event → Bool
  | .signalReady _ => true
  | _ => false

def isRefresh : Event → Bool
  | .refreshOrder => true
  | _ => false

def isWriteCert : Event → Bool
  | .writeCert _ _ _ => true
  | _ => false

lemma create_order_events_shape (credFile : Option AccountCredentials)
    (authorityCred : AccountCredentials) (hosts excludedHosts : List String) :
    ∀ e ∈ (create_order credFile authorityCred hosts excludedHosts).2,
      e = Event.newAccountRequest ∨ ∃ ids, e = Event.newOrderRequest ids := by
  intro e he
  simp only [create_order] at he
  split at he <;> cases credFile <;>
    simp [create_account] at he <;> tauto

lemma create_challenges_events_shape (credFile : Option AccountCredentials)
    (authorityCred : AccountCredentials) (hosts excludedHosts : List String)
    (keyAuthOf : String → String) (authorizations : List Authorization) :
    ∀ e ∈ (create_challenges_from_order credFile authorityCred hosts
        excludedHosts keyAuthOf authorizations).2,
      e = Event.newAccountRequest ∨ ∃ ids, e = Event.newOrderRequest ids := by
  intro e he
  rw [create_challenges_from_order] at he
  rcases horder : create_order credFile authorityCred hosts excludedHosts with
    ⟨res, events⟩
  have hev := create_order_events_shape credFile authorityCred hosts
    excludedHosts
  rw [horder] at he hev
  cases res <;> exact hev e he

lemma publishLoop_mem_shape :
    ∀ (store : List (String × ChallengeRecord)) (e : Event),
      e ∈ publishLoop store →
        (∃ h, e = Event.persistChallenge h) ∨ (∃ h, e = Event.signalReady h)
  | [], e, he => by simp [publishLoop] at he
  | (identifier, record) :: rest, e, he => by
    rcases he with _ | ⟨_, (_ | ⟨_, hrest⟩)⟩
    · exact Or.inl ⟨identifier, rfl⟩
    · exact Or.inr ⟨identifier, rfl⟩
    · exact publishLoop_mem_shape rest e hrest

lemma pollEvents_mem_shape (statusAt : Nat → OrderStatus) (e : Event)
    (he : e ∈ pollEvents statusAt) :
    (∃ d, e = Event.sleepFor d) ∨ e = Event.refreshOrder := by
  rw [pollEvents] at he
  obtain ⟨d, _, hd⟩ := List.mem_flatMap.1 he
  rcases hd with _ | ⟨_, (_ | ⟨_, h⟩)⟩
  · exact Or.inl ⟨d, rfl⟩
  · exact Or.inr rfl
  · cases h

lemma downloadLoop_events_shape (certAt : Nat → CertOutcome) :
    ∀ (fuel i : Nat) (e : Event), e ∈ (downloadLoop certAt i fuel).2 →
      e = Event.certDownloadAttempt ∨ e = Event.sleepFor 5
  | 0, i, e, he => by simp [downloadLoop] at he
  | fuel + 1, i, e, he => by
    rw [downloadLoop] at he
    rcases hout : certAt i with cert | _ | _ <;> rw [hout] at he
    · simpa using Or.inl (by simpa using he)
    · rcases he with _ | ⟨_, (_ | ⟨_, hrest⟩)⟩
      · exact Or.inl rfl
      · exact Or.inr rfl
      · exact downloadLoop_events_shape certAt fuel (i + 1) e hrest
    · simpa using Or.inl (by simpa using he)

/-- A certificate write can only appear in a run's trace when finalization
was accepted and the download loop returned a chain. -/
lemma writeCert_mem_start (hosts : List String) (env : Env)
    (host cert key : String)
    (hmem : Event.writeCert host cert key ∈ start hosts env) :
    env.finalizeOk = true ∧
      ∃ c, (downloadLoop env.certAt 0 env.dlFuel).1 = .got c := by
  unfold start at hmem
  dsimp only at hmem
  split at hmem
  · cases hmem
  · split at hmem
    · rename_i store events heq
      rcases List.mem_append.1 hmem with hin | hin
      · rcases create_challenges_events_shape env.credFile env.authorityCred
            hosts (hosts.filter env.challengeFileExists) env.keyAuthOf
            env.authorizations (Event.writeCert host cert key) (by rw [heq]; exact hin) with
          h | ⟨ids, h⟩ <;> cases h
      · rcases hin with _ | ⟨_, hin⟩
        split at hin
        · cases hin
        · rcases List.mem_append.1 hin with hin | hin
          · rcases List.mem_append.1 hin with hin | hin
            · rcases publishLoop_mem_shape _ _ hin with ⟨h, hh⟩ | ⟨h, hh⟩ <;>
                cases hh
            · rcases pollEvents_mem_shape _ _ hin with ⟨d, hd⟩ | hd <;>
                cases hd
          · split at hin
            · cases hin
            · rcases hin with _ | ⟨_, hin⟩
              split at hin
              · cases hin
              · rename_i hfin
                have hfin' : env.finalizeOk = true := by
                  cases hfe : env.finalizeOk
                  · exact absurd hfe hfin
                  · rfl
                refine ⟨hfin', ?_⟩
                rcases List.mem_append.1 hin with hin | hin
                · rcases downloadLoop_events_shape env.certAt env.dlFuel 0 _
                    hin with h | h <;> cases h
                · split at hin
                  · rename_i c hc
                    exact ⟨c, hc⟩
                  · cases hin
    · rename_i events heq
      rcases List.mem_append.1 hmem with hin | hin
      · rcases create_challenges_events_shape env.credFile env.authorityCred
            hosts (hosts.filter env.challengeFileExists) env.keyAuthOf
            env.authorizations (Event.writeCert host cert key) (by rw [heq]; exact hin) with
          h | ⟨ids, h⟩ <;> cases h
      · rcases hin with _ | ⟨_, hin⟩
        cases hin
    · rename_i heq₁ heq₂
      rcases create_challenges_events_shape env.credFile env.authorityCred
          hosts (hosts.filter env.challengeFileExists) env.keyAuthOf
          env.authorizations (Event.writeCert host cert key) (by rw [heq₂]; exact hmem) with
        h | ⟨ids, h⟩ <;> cases h

/-- **C9.** In every run where order finalization is rejected or the
certificate download returns a hard error, no certificate record is written
for any host (no partial per-host writes). -/
theorem claim_C9_no_partial_writes (hosts : List String) (env : Env)
    (h : env.finalizeOk = false ∨
      (downloadLoop env.certAt 0 env.dlFuel).1 = DlStatus.hardErr) :
    ∀ host cert key, Event.writeCert host cert key ∉ start hosts env := by
  intro host cert key hmem
  obtain ⟨hfin, c, hdl⟩ := writeCert_mem_start hosts env host cert key hmem
  rcases h with h | h
  · rw [hfin] at h
    cases h
  · rw [hdl] at h
    cases h

/-- Environment of the C9 witness run: finalization is rejected. -/
def c9Env : Env where
  challengeFileExists := fun _ => false
  credFile := some ⟨"k", "u"⟩
  authorityCred := ⟨"k2", "u2"⟩
  keyAuthOf := fun t => t
  authorizations := [⟨.valid, "a", [⟨.http01, "t", "cu"⟩]⟩]
  statusAt := fun _ => .ready
  finalizeOk := false
  certAt := fun _ => .err
  keyPem := "KEY"
  dlFuel := 1

/-- Witness for C9: with finalization rejected, the run writes no
certificate. -/
theorem claim_C9_no_partial_writes_witness :
    Event.writeCert "a" "CERT" "KEY" ∉ start ["a"] c9Env :=
  claim_C9_no_partial_writes ["a"] c9Env (Or.inl rfl) "a" "CERT" "KEY"

/-- The full trace of a run that reaches the per-host certificate writes. -/
lemma start_success_trace (hosts : List String) (env : Env)
    (store : List (String × ChallengeRecord)) (events : List Event)
    (cert : String) (devs : List Event)
    (hnotall : (hosts.filter env.challengeFileExists).length ≠ hosts.length)
    (hcoord : create_challenges_from_order env.credFile env.authorityCred hosts
      (hosts.filter env.challengeFileExists) env.keyAuthOf env.authorizations
      = (.ok store, events))
    (hstore : store ≠ [])
    (hpoll : (pollLoop env.statusAt).1 = .ready)
    (hfin : env.finalizeOk = true)
    (hdl : downloadLoop env.certAt 0 env.dlFuel = (.got cert, devs)) :
    start hosts env = events ++ .writeOrderRef ::
      (publishLoop store ++ pollEvents env.statusAt ++
        .finalizeRequest :: (devs ++
          (hosts.filter (fun host =>
            !(hosts.filter env.challengeFileExists).contains host)).map
              (fun host => .writeCert host cert env.keyPem))) := by
  unfold start
  simp only [if_neg hnotall, hcoord, if_neg hstore, hpoll, hfin, hdl,
    Bool.true_eq_false, if_false]

/-- **C7.** In every successfully finalized run, a certificate record is
written for every non-excluded host, and any two certificate writes in the
run carry identical chain bytes and identical key bytes (one shared key pair
and one shared multi-domain chain, copied per host). -/
theorem claim_C7_certificate_batch_sharing (hosts : List String) (env : Env)
    (store : List (String × ChallengeRecord)) (events : List Event)
    (cert : String) (devs : List Event)
    (hnotall : (hosts.filter env.challengeFileExists).length ≠ hosts.length)
    (hcoord : create_challenges_from_order env.credFile env.authorityCred hosts
      (hosts.filter env.challengeFileExists) env.keyAuthOf env.authorizations
      = (.ok store, events))
    (hstore : store ≠ [])
    (hpoll : (pollLoop env.statusAt).1 = .ready)
    (hfin : env.finalizeOk = true)
    (hdl : downloadLoop env.certAt 0 env.dlFuel = (.got cert, devs)) :
    (∀ host ∈ hosts.filter (fun h =>
        !(hosts.filter env.challengeFileExists).contains h),
      Event.writeCert host cert env.keyPem ∈ start hosts env)
    ∧ (∀ h₁ c₁ k₁ h₂ c₂ k₂,
        Event.writeCert h₁ c₁ k₁ ∈ start hosts env →
        Event.writeCert h₂ c₂ k₂ ∈ start hosts env →
        c₁ = c₂ ∧ k₁ = k₂) := by
  have htr := start_success_trace hosts env store events cert devs
    hnotall hcoord hstore hpoll hfin hdl
  have hdevs : ∀ e ∈ devs, e = Event.certDownloadAttempt ∨ e = Event.sleepFor 5 := by
    intro e he
    have hmem2 : e ∈ (downloadLoop env.certAt 0 env.dlFuel).2 := by
      rw [hdl]
      exact he
    exact downloadLoop_events_shape env.certAt env.dlFuel 0 e hmem2
  have hchar : ∀ h c k, Event.writeCert h c k ∈ start hosts env →
      c = cert ∧ k = env.keyPem := by
    intro h c k hmem
    rw [htr] at hmem
    rcases List.mem_append.1 hmem with hin | hin
    · rcases create_challenges_events_shape env.credFile env.authorityCred
          hosts (hosts.filter env.challengeFileExists) env.keyAuthOf
          env.authorizations (Event.writeCert h c k)
          (by rw [hcoord]; exact hin) with heq | ⟨ids, heq⟩ <;> cases heq
    · rcases List.mem_cons.1 hin with heq | hin
      · cases heq
      · rcases List.mem_append.1 hin with hin | hin
        · rcases List.mem_append.1 hin with hin | hin
          · rcases publishLoop_mem_shape _ _ hin with ⟨x, hx⟩ | ⟨x, hx⟩ <;>
              cases hx
          · rcases pollEvents_mem_shape _ _ hin with ⟨d, hd⟩ | hd <;> cases hd
        · rcases List.mem_cons.1 hin with heq | hin
          · cases heq
          · rcases List.mem_append.1 hin with hin | hin
            · rcases hdevs _ hin with heq | heq <;> cases heq
            · obtain ⟨x, _, hx⟩ := List.mem_map.1 hin
              cases hx
              exact ⟨rfl, rfl⟩
  constructor
  · intro host hhost
    rw [htr]
    refine List.mem_append_right _ (List.mem_cons_of_mem _
      (List.mem_append_right _ (List.mem_cons_of_mem _
        (List.mem_append_right _ ?_))))
    exact List.mem_map_of_mem _ hhost
  · intro h₁ c₁ k₁ h₂ c₂ k₂ hm₁ hm₂
    obtain ⟨hc₁, hk₁⟩ := hchar h₁ c₁ k₁ hm₁
    obtain ⟨hc₂, hk₂⟩ := hchar h₂ c₂ k₂ hm₂
    exact ⟨hc₁.trans hc₂.symm, hk₁.trans hk₂.symm⟩

/-- Environment of the C7 witness run: one Valid authorization for `a`, the
order immediately Ready, finalization accepted, chain `CERT` downloaded on
the first attempt, key pair `KEY`. -/
def c7Env : Env where
  challengeFileExists := fun _ => false
  credFile := some ⟨"k", "u"⟩
  authorityCred := ⟨"k2", "u2"⟩
  keyAuthOf := fun t => t
  authorizations := [⟨.valid, "a", [⟨.http01, "t", "cu"⟩]⟩]
  statusAt := fun _ => .ready
  finalizeOk := true
  certAt := fun _ => .ready "CERT"
  keyPem := "KEY"
  dlFuel := 1

/-- Witness for C7: finalizing the order for hosts `{a, b}` writes the same
chain and key bytes for both hosts. -/
theorem claim_C7_certificate_batch_sharing_witness :
    Event.writeCert "a" "CERT" "KEY" ∈ start ["a", "b"] c7Env
    ∧ Event.writeCert "b" "CERT" "KEY" ∈ start ["a", "b"] c7Env := by
  have h := claim_C7_certificate_batch_sharing ["a", "b"] c7Env
    [("a", ⟨"t", "cu", "t"⟩)] [.newOrderRequest ["a", "b"]]
    "CERT" [.certDownloadAttempt]
    (by decide) (by decide) (by decide) (by decide) rfl (by decide)
  exact ⟨h.1 "a" (by decide), h.1 "b" (by decide)⟩

/-! ## Ordering of challenge persistence, readiness signals and polling -/

lemma publishLoop_length :
    ∀ store : List (String × ChallengeRecord),
      (publishLoop store).length = 2 * store.length
  | [] => rfl
  | (identifier, record) :: rest => by
    simp [publishLoop, publishLoop_length rest]
    omega

lemma publishLoop_getElem :
    ∀ (store : List (String × ChallengeRecord)) (n : Nat)
      (hn : n < store.length),
      (publishLoop store)[2 * n]? =
        some (.persistChallenge (store.get ⟨n, hn⟩).1)
      ∧ (publishLoop store)[2 * n + 1]? =
        some (.signalReady (store.get ⟨n, hn⟩).1)
  | [], n, hn => by simp at hn
  | (identifier, record) :: rest, 0, _ => by simp [publishLoop]
  | (identifier, record) :: rest, n + 1, hn => by
    have hn' : n < rest.length := by simpa using hn
    have ih := publishLoop_getElem rest n hn'
    have h2 : 2 * (n + 1) = 2 * n + 1 + 1 := by omega
    simp only [publishLoop, h2, List.getElem?_cons_succ]
    simpa using ih

lemma publishLoop_count_signal (ident : String) :
    ∀ store : List (String × ChallengeRecord),
      (publishLoop store).count (.signalReady ident) =
        (store.map Prod.fst).count ident
  | [] => rfl
  | (identifier, record) :: rest => by
    simp only [publishLoop, List.map_cons, List.count_cons,
      publishLoop_count_signal ident rest]
    by_cases h : identifier = ident <;> simp [h]

lemma count_signal_eq_zero (l : List Event)
    (h : ∀ e ∈ l, isSignal e = false) (ident : String) :
    l.count (.signalReady ident) = 0 := by
  rw [List.count_eq_zero]
  intro hmem
  have := h _ hmem
  simp [isSignal] at this

lemma index_lt_of_suffix_none (l₁ l₂ : List Event) (p : Event → Bool)
    (h₂ : ∀ e ∈ l₂, p e = false) (i : Nat) (e : Event)
    (hi : (l₁ ++ l₂)[i]? = some e) (hp : p e = true) : i < l₁.length := by
  by_contra hge
  push_neg at hge
  rw [List.getElem?_append_right hge] at hi
  rw [h₂ e (List.getElem?_mem hi)] at hp
  cases hp

lemma index_ge_of_front_none (l₁ l₂ : List Event) (p : Event → Bool)
    (h₁ : ∀ e ∈ l₁, p e = false) (j : Nat) (e : Event)
    (hj : (l₁ ++ l₂)[j]? = some e) (hp : p e = true) : l₁.length ≤ j := by
  by_contra hlt
  push_neg at hlt
  rw [List.getElem?_append, if_pos hlt] at hj
  rw [h₁ e (List.getElem?_mem hj)] at hp
  cases hp

/-- Any run that reaches the publish loop decomposes into the coordination
events, the order-reference write, the interleaved publish loop, the poll
events, and a tail free of persist, signal and refresh events. -/
lemma start_publish_decomp (hosts : List String) (env : Env)
    (store : List (String × ChallengeRecord)) (events : List Event)
    (hnotall : (hosts.filter env.challengeFileExists).length ≠ hosts.length)
    (hcoord : create_challenges_from_order env.credFile env.authorityCred hosts
      (hosts.filter env.challengeFileExists) env.keyAuthOf env.authorizations
      = (.ok store, events))
    (hstore : store ≠ []) :
    ∃ tail, start hosts env =
      (events ++ [Event.writeOrderRef]) ++
        (publishLoop store ++ (pollEvents env.statusAt ++ tail))
      ∧ ∀ e ∈ tail, isSignal e = false ∧ isRefresh e = false
          ∧ isPersist e = false := by
  cases hpr : (pollLoop env.statusAt).1 with
  | gaveUp =>
    refine ⟨[], ?_, by simp⟩
    unfold start
    simp only [if_neg hnotall, hcoord, if_neg hstore, hpr]
    simp [List.append_assoc]
  | ready =>
    refine ⟨Event.finalizeRequest ::
      (if env.finalizeOk = false then []
       else (downloadLoop env.certAt 0 env.dlFuel).2 ++
         match (downloadLoop env.certAt 0 env.dlFuel).1 with
         | .got cert =>
           (hosts.filter (fun host =>
             !(hosts.filter env.challengeFileExists).contains host)).map
               (fun host => Event.writeCert host cert env.keyPem)
         | _ => []), ?_, ?_⟩
    · unfold start
      simp only [if_neg hnotall, hcoord, if_neg hstore, hpr]
      simp [List.append_assoc]
    · intro e he
      rcases List.mem_cons.1 he with rfl | he
      · exact ⟨rfl, rfl, rfl⟩
      · split at he
        · cases he
        · rcases List.mem_append.1 he with he | he
          · rcases downloadLoop_events_shape env.certAt env.dlFuel 0 e he with
              rfl | rfl <;> exact ⟨rfl, rfl, rfl⟩
          · split at he
            · obtain ⟨x, _, hx⟩ := List.mem_map.1 he
              rw [← hx]
              exact ⟨rfl, rfl, rfl⟩
            all_goals cases he

/-- The property C8 asserts of a run trace: every challenge-record persist
event occurs before every readiness-signal event. -/
def allPersistsBeforeSignals (tr : List Event) : Prop :=
  ∀ i j : Fin tr.length, isPersist (tr.get i) = true →
    isSignal (tr.get j) = true → (i : Nat) < (j : Nat)

instance (tr : List Event) : Decidable (allPersistsBeforeSignals tr) :=
  inferInstanceAs (Decidable (∀ i j : Fin tr.length,
    isPersist (tr.get i) = true → isSignal (tr.get j) = true →
      (i : Nat) < (j : Nat)))

/-- Environment of the C8 runs: two Valid authorizations, order immediately
Ready, finalization rejected (the tail does not matter for C8). -/
def c8Env : Env where
  challengeFileExists := fun _ => false
  credFile := some ⟨"k", "u"⟩
  authorityCred := ⟨"k2", "u2"⟩
  keyAuthOf := fun t => t
  authorizations := [⟨.valid, "h1", [⟨.http01, "t1", "u1"⟩]⟩,
                     ⟨.valid, "h2", [⟨.http01, "t2", "u2"⟩]⟩]
  statusAt := fun _ => .ready
  finalizeOk := false
  certAt := fun _ => .err
  keyPem := "KEY"
  dlFuel := 0

/-- Counterexample to C8 as stated: in the run for hosts `{h1, h2}` the
trace is `…, persist h1, signal h1, persist h2, signal h2, …` — `h2`'s
record is persisted *after* `h1`'s ready signal, so not all records are
persisted before the first signal is sent. -/
theorem claim_C8_counterexample :
    ¬ allPersistsBeforeSignals (start ["h1", "h2"] c8Env) := by decide

/-- **C8 (amended).** In every run that reaches the publish loop: each
record's persist event immediately precedes that record's own ready signal
(persist at offset `2n`, signal at `2n+1` after the coordination events and
the order-reference write); every persisted record receives exactly one
ready signal; and no order refresh happens before any signal — but records
are persisted and signalled interleaved per record, not all persisted before
the first signal. -/
theorem claim_C8_amended_publish_order (hosts : List String) (env : Env)
    (store : List (String × ChallengeRecord)) (events : List Event)
    (hnotall : (hosts.filter env.challengeFileExists).length ≠ hosts.length)
    (hcoord : create_challenges_from_order env.credFile env.authorityCred hosts
      (hosts.filter env.challengeFileExists) env.keyAuthOf env.authorizations
      = (.ok store, events))
    (hstore : store ≠ []) :
    (∀ n (hn : n < store.length),
      (start hosts env)[events.length + 1 + 2 * n]? =
        some (Event.persistChallenge (store.get ⟨n, hn⟩).1)
      ∧ (start hosts env)[events.length + 1 + 2 * n + 1]? =
        some (Event.signalReady (store.get ⟨n, hn⟩).1))
    ∧ (∀ ident, (start hosts env).count (Event.signalReady ident) =
        (store.map Prod.fst).count ident)
    ∧ (∀ (i j : Nat) (e₁ e₂ : Event), (start hosts env)[i]? = some e₁ →
        (start hosts env)[j]? = some e₂ →
        isSignal e₁ = true → isRefresh e₂ = true → i < j) := by
  obtain ⟨tail, htr, htail⟩ :=
    start_publish_decomp hosts env store events hnotall hcoord hstore
  have hev : ∀ e ∈ events, e = Event.newAccountRequest ∨
      ∃ ids, e = Event.newOrderRequest ids := by
    intro e he
    exact create_challenges_events_shape env.credFile env.authorityCred hosts
      (hosts.filter env.challengeFileExists) env.keyAuthOf env.authorizations
      e (by rw [hcoord]; exact he)
  have hpre : ∀ e ∈ events ++ [Event.writeOrderRef],
      isSignal e = false ∧ isRefresh e = false := by
    intro e he
    rcases List.mem_append.1 he with he | he
    · rcases hev e he with rfl | ⟨ids, rfl⟩ <;> exact ⟨rfl, rfl⟩
    · simp only [List.mem_singleton] at he
      subst he
      exact ⟨rfl, rfl⟩
  have hpoll : ∀ e ∈ pollEvents env.statusAt, isSignal e = false := by
    intro e he
    rcases pollEvents_mem_shape env.statusAt e he with ⟨d, rfl⟩ | rfl <;> rfl
  have hpub : ∀ e ∈ publishLoop store, isRefresh e = false := by
    intro e he
    rcases publishLoop_mem_shape store e he with ⟨x, rfl⟩ | ⟨x, rfl⟩ <;> rfl
  have hlenpre : (events ++ [Event.writeOrderRef]).length =
      events.length + 1 := by simp
  refine ⟨?_, ?_, ?_⟩
  · intro n hn
    have hpub2 := publishLoop_getElem store n hn
    have hplen := publishLoop_length store
    constructor
    · rw [htr, List.getElem?_append_right (by omega :
        (events ++ [Event.writeOrderRef]).length ≤ events.length + 1 + 2 * n)]
      have hidx : events.length + 1 + 2 * n -
          (events ++ [Event.writeOrderRef]).length = 2 * n := by
        rw [hlenpre]
        omega
      rw [hidx, List.getElem?_append, if_pos (by omega : 2 * n <
        (publishLoop store).length)]
      exact hpub2.1
    · rw [htr, List.getElem?_append_right (by omega :
        (events ++ [Event.writeOrderRef]).length ≤
          events.length + 1 + 2 * n + 1)]
      have hidx : events.length + 1 + 2 * n + 1 -
          (events ++ [Event.writeOrderRef]).length = 2 * n + 1 := by
        rw [hlenpre]
        omega
      rw [hidx, List.getElem?_append, if_pos (by omega : 2 * n + 1 <
        (publishLoop store).length)]
      exact hpub2.2
  · intro ident
    rw [htr]
    simp only [List.count_append]
    rw [count_signal_eq_zero events
        (fun e he => (hpre e (List.mem_append_left _ he)).1) ident,
      count_signal_eq_zero [Event.writeOrderRef]
        (fun e he => (hpre e (List.mem_append_right _ he)).1) ident,
      count_signal_eq_zero (pollEvents env.statusAt) hpoll ident,
      count_signal_eq_zero tail (fun e he => (htail e he).1) ident,
      publishLoop_count_signal ident store]
    omega
  · intro i j e₁ e₂ hi hj hs hr
    have hassoc : (events ++ [Event.writeOrderRef]) ++
        (publishLoop store ++ (pollEvents env.statusAt ++ tail)) =
        ((events ++ [Event.writeOrderRef]) ++ publishLoop store) ++
          (pollEvents env.statusAt ++ tail) := by
      simp [List.append_assoc]
    rw [htr, hassoc] at hi hj
    have hsuffix : ∀ e ∈ pollEvents env.statusAt ++ tail,
        isSignal e = false := by
      intro e he
      rcases List.mem_append.1 he with he | he
      · exact hpoll e he
      · exact (htail e he).1
    have hfront : ∀ e ∈ (events ++ [Event.writeOrderRef]) ++
        publishLoop store, isRefresh e = false := by
      intro e he
      rcases List.mem_append.1 he with he | he
      · exact (hpre e he).2
      · exact hpub e he
    have h₁ := index_lt_of_suffix_none _ _ isSignal hsuffix i e₁ hi hs
    have h₂ := index_ge_of_front_none _ _ isRefresh hfront j e₂ hj hr
    omega

/-- Witness for C8 (amended): in the two-record run, `h1`'s record is
persisted at index 2 and signalled at index 3. -/
theorem claim_C8_amended_publish_order_witness :
    (start ["h1", "h2"] c8Env)[2]? = some (Event.persistChallenge "h1")
    ∧ (start ["h1", "h2"] c8Env)[3]? = some (Event.signalReady "h1") := by
  have h := (claim_C8_amended_publish_order ["h1", "h2"] c8Env
    [("h1", ⟨"t1", "u1", "t1"⟩), ("h2", ⟨"t2", "u2", "t2"⟩)]
    [.newOrderRequest ["h1", "h2"]]
    (by decide) (by decide) (by decide)).1 0 (by decide)
  simpa using h

end Proksi
